import Mathlib

/-
Shallow embedding of the Columbus City Council extraction scripts
(extract_columbus.py and extract_q1_2023.py) and proofs of the spec's
testable properties about them.

Python dictionaries are modelled as association lists with first-match
lookup (a dict assignment conses the new binding in front, so the most
recent assignment wins, as in a dict); API fetches are modelled as
oracle functions from identifier to response, making each network call
a pure read of an unchanging upstream.
-/

namespace CityVotes

/-- First-match lookup in an association list; models `d[k]` and `k in d`. -/
def assocLookup {κ α : Type} [DecidableEq κ] : List (κ × α) → κ → Option α
  | [], _ => none
  | (k, v) :: rest, key => if k = key then some v else assocLookup rest key

/-- Models Python `d.get(k, default)`. -/
def dictGet {κ α : Type} [DecidableEq κ] (d : List (κ × α)) (k : κ) (dflt : α) : α :=
  (assocLookup d k).getD dflt

/-- ColumbusExtractionWorkflow.VOTE_MAP, extract_columbus.py lines 446-453. -/
def VOTE_MAP : List (String × String) :=
  [("Affirmative", "Yes"),
   ("Negative", "No"),
   ("Abstained", "Abstain"),
   ("Absent@vote", "Absent"),
   ("Absent", "Absent"),
   ("Present", "Present")]

/-- Models `self.VOTE_MAP.get(v, v)` (extract_columbus.py line 463). -/
def voteMapGet (v : String) : String :=
  (assocLookup VOTE_MAP v).getD v

/-- One collected agenda item record (the dict built in collect_event_items,
extract_columbus.py lines 224-262, restricted to the fields the verified
phases read or write). `passed` is the tri-state EventItemPassedFlag. -/
structure AgendaItem where
  event_item_id : Int
  passed : Option Int
  item_votes : List (String × String)
  attendance : List (String × String)
  matter_id : Option Nat
  matter_title : String
  matter_type_name : String
  matter_status_name : String
  matter_intro_date : String
  matter_passed_date : String
  matter_enactment_date : String
  matter_enactment_number : String
  matter_requester : String
  matter_body_name : String
  attachment_links : String
  Agenda_item_fulltext : String
  deriving DecidableEq

/-- Per-member value in the explicit roll-call branch of _assign_votes
(extract_columbus.py lines 461-469): a recorded vote is translated through
VOTE_MAP, a member missing from the per-item votes falls back to attendance. -/
def itemVoteValue (item : AgendaItem) (member : String) : String :=
  match assocLookup item.item_votes member with
  | some v => voteMapGet v
  | none =>
    let att := dictGet item.attendance member ""
    if att = "Absent" ∨ att = "Absent@vote" then "Absent" else ""

/-- Per-member value in the consent/voice-vote branch of _assign_votes
(extract_columbus.py lines 472-477). -/
def consentVoteValue (item : AgendaItem) (member : String) : String :=
  let att := dictGet item.attendance member ""
  if att = "Absent" ∨ att = "Absent@vote" then "Absent" else "Yes"

/-- ColumbusExtractionWorkflow._assign_votes (extract_columbus.py lines 455-481). -/
def assignVotes (item : AgendaItem) (members_list : List String) : List (String × String) :=
  if item.item_votes ≠ [] then
    members_list.map (fun member => (member, itemVoteValue item member))
  else if item.passed = some 1 then
    members_list.map (fun member => (member, consentVoteValue item member))
  else
    members_list.map (fun member => (member, ""))

/-- Per-member value written by extract_q1_2023.py's row loop for an item
with passed flag 1 (lines 380-388). -/
def q1RowVote (item : AgendaItem) (member : String) : String :=
  let attendance_status := dictGet item.attendance member ""
  if attendance_status = "Present" then "Yes"
  else if attendance_status = "Absent" ∨ attendance_status = "Absent@vote" then "Absent"
  else "Yes"

/-- The per-member vote columns written by the primary row-writing loop of
extract_q1_2023.py main (lines 376-398). -/
def q1AssignRow (item : AgendaItem) (members_list : List String) : List (String × String) :=
  if item.passed = some 1 then
    members_list.map (fun member => (member, q1RowVote item member))
  else if item.passed = some 0 then
    members_list.map (fun member => (member, ""))
  else
    members_list.map (fun member => (member, ""))

/-- The quarters dict of get_quarter_dates (extract_columbus.py lines 47-52);
`none` models the KeyError raised for a quarter outside 1-4. -/
def quartersTable (quarter : Nat) : Option (String × String) :=
  match quarter with
  | 1 => some ("01-01", "04-01")
  | 2 => some ("04-01", "07-01")
  | 3 => some ("07-01", "10-01")
  | 4 => some ("10-01", "01-01")
  | _ => none

/-- get_quarter_dates (extract_columbus.py lines 42-56). -/
def get_quarter_dates (year : Int) (quarter : Nat) : Option (String × String) :=
  (quartersTable quarter).map (fun q =>
    let start := toString year ++ "-" ++ q.1
    let end_year : Int := if quarter = 4 then year + 1 else year
    (start, toString end_year ++ "-" ++ q.2))

/-- A calendar date, for interpreting the date strings the resolver emits. -/
structure CalDate where
  year : Int
  month : Nat
  day : Nat
  deriving DecidableEq

/-- Strict calendar order on dates. -/
def dateLt (a b : CalDate) : Prop :=
  a.year < b.year ∨
    (a.year = b.year ∧ (a.month < b.month ∨ (a.month = b.month ∧ a.day < b.day)))

/-- Two-digit zero-padded numeral, as in the MM-DD literals of the table. -/
def pad2 (n : Nat) : String :=
  if n < 10 then "0" ++ toString n else toString n

/-- Renders a date the way get_quarter_dates formats its output strings. -/
def formatDate (d : CalDate) : String :=
  toString d.year ++ "-" ++ pad2 d.month ++ "-" ++ pad2 d.day

/-- Start boundary of a quarter as a calendar date. -/
def quarterStart (year : Int) (quarter : Nat) : Option CalDate :=
  match quarter with
  | 1 => some ⟨year, 1, 1⟩
  | 2 => some ⟨year, 4, 1⟩
  | 3 => some ⟨year, 7, 1⟩
  | 4 => some ⟨year, 10, 1⟩
  | _ => none

/-- End boundary of a quarter as a calendar date; quarter 4 rolls into
January 1 of the next year. -/
def quarterEnd (year : Int) (quarter : Nat) : Option CalDate :=
  match quarter with
  | 1 => some ⟨year, 4, 1⟩
  | 2 => some ⟨year, 7, 1⟩
  | 3 => some ⟨year, 10, 1⟩
  | 4 => some ⟨year + 1, 1, 1⟩
  | _ => none

/-- Matter detail fields read by the enrichment back-fill
(extract_columbus.py lines 317-328); each is optional in the JSON. -/
structure MatterDetails where
  MatterTitle : Option String
  MatterTypeName : Option String
  MatterStatusName : Option String
  MatterIntroDate : Option String
  MatterPassedDate : Option String
  MatterEnactmentDate : Option String
  MatterEnactmentNumber : Option String
  MatterRequester : Option String
  MatterBodyName : Option String
  deriving DecidableEq

/-- Models Python `x or ''` over an optional JSON string field. -/
def orEmpty (o : Option String) : String :=
  o.getD ""

/-- One matter_cache entry: the fetched detail record (None on a failed
fetch) and the attachment list, each attachment being its optional
MatterAttachmentHyperlink field. -/
structure MatterCacheEntry where
  details : Option MatterDetails
  attachments : List (Option String)
  deriving DecidableEq

/-- The detail back-fill of one item (extract_columbus.py lines 316-328). -/
def applyDetails (item : AgendaItem) (d : MatterDetails) : AgendaItem :=
  { item with
    matter_title := orEmpty d.MatterTitle
    matter_type_name := orEmpty d.MatterTypeName
    matter_status_name := orEmpty d.MatterStatusName
    matter_intro_date := (orEmpty d.MatterIntroDate).take 10
    matter_passed_date := (orEmpty d.MatterPassedDate).take 10
    matter_enactment_date := (orEmpty d.MatterEnactmentDate).take 10
    matter_enactment_number := orEmpty d.MatterEnactmentNumber
    matter_requester := orEmpty d.MatterRequester
    matter_body_name := orEmpty d.MatterBodyName }

/-- Pipe-joined attachment hyperlinks, dropping falsy ones
(extract_columbus.py lines 332-333). -/
def attachmentLinks (attachments : List (Option String)) : String :=
  String.intercalate "|"
    (attachments.filterMap (fun a =>
      let s := orEmpty a
      if s = "" then none else some s))

/-- The non-null (and, by Python truthiness, nonzero) matter identifier of an
item, as tested by `if mid:` (extract_columbus.py lines 297-299 and 313-314). -/
def matterKey (item : AgendaItem) : Option Nat :=
  match item.matter_id with
  | some mid => if mid = 0 then none else some mid
  | none => none

/-- Applies one cache entry to an item: details when present, then the
attachment links when the attachment list is non-empty
(extract_columbus.py lines 315-333). -/
def applyCacheEntry (entry : MatterCacheEntry) (item : AgendaItem) : AgendaItem :=
  let item1 :=
    match entry.details with
    | some d => applyDetails item d
    | none => item
  if entry.attachments ≠ [] then
    { item1 with attachment_links := attachmentLinks entry.attachments }
  else item1

/-- The per-item half of the back-fill loop (extract_columbus.py
lines 312-333): nothing happens unless the item has a truthy matter id
present in the cache. -/
def enrichItem (cache : List (Nat × MatterCacheEntry)) (item : AgendaItem) : AgendaItem :=
  match matterKey item with
  | none => item
  | some mid =>
    match assocLookup cache mid with
    | none => item
    | some entry => applyCacheEntry entry item

/-- The sorted set of unique truthy matter ids (extract_columbus.py
lines 295-302). -/
def uniqueMatterIds (items : List AgendaItem) : List Nat :=
  List.insertionSort (· ≤ ·) (items.filterMap matterKey).dedup

/-- enrich_matter_data (extract_columbus.py lines 292-335): fetch loop over
the unique matter ids writing the cache, then the back-fill over all items.
The two fetch endpoints are modelled as oracle functions. -/
def enrich_matter_data (fetchDetails : Nat → Option MatterDetails)
    (fetchAttachments : Nat → List (Option String))
    (cache0 : List (Nat × MatterCacheEntry)) (items : List AgendaItem) :
    List (Nat × MatterCacheEntry) × List AgendaItem :=
  let cache := (uniqueMatterIds items).foldl
    (fun c mid => (mid, ⟨fetchDetails mid, fetchAttachments mid⟩) :: c) cache0
  (cache, items.map (enrichItem cache))

/-- One row of a previously written primary CSV, restricted to the two
columns load_existing_text reads. -/
structure CsvRow where
  event_item_id : String
  Agenda_item_fulltext : String
  deriving DecidableEq

/-- The per-row step of load_existing_text (extract_columbus.py
lines 491-495): keep the text keyed by event_item_id when both are
non-empty, later rows overwriting earlier ones. -/
def loadTextStep (text_map : List (String × String)) (row : CsvRow) :
    List (String × String) :=
  if row.event_item_id ≠ "" ∧ row.Agenda_item_fulltext ≠ "" then
    (row.event_item_id, row.Agenda_item_fulltext) :: text_map
  else text_map

/-- load_existing_text (extract_columbus.py lines 483-499) over the rows of
the prior run's primary CSV. -/
def load_existing_text (rows : List CsvRow) : List (String × String) :=
  rows.foldl loadTextStep []

/-- The preservation loop of run's skip-text branch (extract_columbus.py
lines 597-602): items whose stringified event_item_id is in the text map
get that text. -/
def preserveText (text_map : List (String × String)) (items : List AgendaItem) :
    List AgendaItem :=
  items.map (fun item =>
    match assocLookup text_map (toString item.event_item_id) with
    | some t => { item with Agenda_item_fulltext := t }
    | none => item)

/-- run's skip-text branch (extract_columbus.py lines 592-603): load the
prior CSV's text map and, when it is non-empty, preserve its entries. -/
def run_skip_text_phase (rows : List CsvRow) (items : List AgendaItem) :
    List AgendaItem :=
  let text_map := load_existing_text rows
  if text_map.isEmpty then items else preserveText text_map items

/-- One output row: the item together with its per-member vote columns
(the row dict of write_output, extract_columbus.py lines 530-533). -/
abbrev OutputRow := AgendaItem × List (String × String)

/-- The rows written for a list of items, each carrying its _assign_votes
result. -/
def buildRows (members_list : List String) (items : List AgendaItem) :
    List OutputRow :=
  items.map (fun item => (item, assignVotes item members_list))

/-- The primary and optional secondary CSV bodies of write_output
(extract_columbus.py lines 501-552): votes-only filters the primary and
skips the secondary file; otherwise the secondary holds exactly the items
with a non-absent passed flag. -/
def write_output (votes_only : Bool) (members_list : List String)
    (all_items : List AgendaItem) :
    List OutputRow × Option (List OutputRow) :=
  let items := if votes_only then all_items.filter (fun i => i.passed.isSome) else all_items
  let primary := buildRows members_list items
  let secondary :=
    if votes_only then none
    else some (buildRows members_list (items.filter (fun i => i.passed.isSome)))
  (primary, secondary)

/-- The workflow accumulator state around _assign_votes
(extract_columbus.py lines 96-99). -/
structure WorkflowState where
  all_members : List String
  attendance_by_meeting : List (Nat × List (String × String))
  matter_cache : List (Nat × MatterCacheEntry)
  deriving DecidableEq

/-- _assign_votes with the workflow state and the item threaded explicitly:
the body (extract_columbus.py lines 455-481) only reads them while building
a fresh votes dict, so both come back unchanged beside the computed mapping. -/
def assignVotesSt (st : WorkflowState) (item : AgendaItem) (members_list : List String) :
    WorkflowState × AgendaItem × List (String × String) :=
  let votes :=
    if item.item_votes ≠ [] then
      members_list.map (fun member => (member, itemVoteValue item member))
    else if item.passed = some 1 then
      members_list.map (fun member => (member, consentVoteValue item member))
    else
      members_list.map (fun member => (member, ""))
  (st, item, votes)

/-- A blank agenda item used to build the concrete test records below. -/
def blankItem : AgendaItem where
  event_item_id := 0
  passed := none
  item_votes := []
  attendance := []
  matter_id := none
  matter_title := ""
  matter_type_name := ""
  matter_status_name := ""
  matter_intro_date := ""
  matter_passed_date := ""
  matter_enactment_date := ""
  matter_enactment_number := ""
  matter_requester := ""
  matter_body_name := ""
  attachment_links := ""
  Agenda_item_fulltext := ""

/-- An item with an explicit recorded vote that contradicts attendance. -/
def itemRollCall : AgendaItem :=
  { blankItem with
    event_item_id := 11
    passed := some 1
    item_votes := [("Alice", "Negative")]
    attendance := [("Alice", "Absent")] }

/-- A consent/voice-vote item: passed, no per-item votes, one member absent. -/
def itemConsent : AgendaItem :=
  { blankItem with
    event_item_id := 12
    passed := some 1
    attendance := [("Bob", "Absent@vote"), ("Carol", "Present")] }

/-- A failed item with no per-item votes. -/
def itemFailed : AgendaItem :=
  { blankItem with
    event_item_id := 13
    passed := some 0
    attendance := [("Bob", "Present")] }

/-- An item referencing matter 5. -/
def itemMatter : AgendaItem :=
  { blankItem with event_item_id := 14, matter_id := some 5 }

/-- An item whose full text a prior CSV holds under id 7. -/
def itemText : AgendaItem :=
  { blankItem with event_item_id := 7 }

/-- An empty workflow state. -/
def emptyState : WorkflowState :=
  ⟨[], [], []⟩

/-- A concrete detail-fetch oracle. -/
def fetchDetails0 : Nat → Option MatterDetails := fun _ =>
  some ⟨some "An ordinance", some "Ordinance", some "Passed",
    some "2023-01-15T00:00:00", none, none, none, none, none⟩

/-- A concrete attachment-fetch oracle. -/
def fetchAttachments0 : Nat → List (Option String) := fun _ =>
  [some "https://example.test/a.pdf", none]

/-- A prior-run CSV row holding full text for item id 7. -/
def rowPrior : CsvRow :=
  ⟨"7", "Full text of item seven"⟩

theorem assocLookup_map_pair {κ α : Type} [DecidableEq κ] {g : κ → α}
    {l : List κ} {k : κ} (hm : k ∈ l) :
    assocLookup (l.map (fun x => (x, g x))) k = some (g k) := by
  induction l with
  | nil => cases hm
  | cons a as ih =>
    simp only [List.map_cons, assocLookup]
    by_cases h : a = k
    · subst h; simp
    · rw [if_neg h]
      rcases List.mem_cons.mp hm with h1 | h1
      · exact absurd h1.symm h
      · exact ih h1

theorem map_fst_pair {κ α : Type} (f : κ → α) (l : List κ) :
    (l.map (fun m => (m, f m))).map Prod.fst = l := by
  induction l with
  | nil => rfl
  | cons a as ih => simp only [List.map_cons, ih]

/-- C1: if an item has a non-empty per-item vote mapping, every member of the
canonical list that appears as a key in that mapping is assigned the VOTE_MAP
translation of the recorded value, never the attendance-derived fallback,
whatever the attendance mapping says about that member. -/
theorem assign_votes_recorded_precedence
    (item : AgendaItem) (members : List String) (member v : String)
    (hne : item.item_votes ≠ [])
    (hv : assocLookup item.item_votes member = some v)
    (hm : member ∈ members) :
    assocLookup (assignVotes item members) member = some (voteMapGet v) := by
  unfold assignVotes
  rw [if_pos hne, assocLookup_map_pair hm]
  unfold itemVoteValue
  rw [hv]

theorem assign_votes_recorded_precedence_witness :
    assocLookup (assignVotes itemRollCall ["Alice", "Bob"]) "Alice" =
      some (voteMapGet "Negative") :=
  assign_votes_recorded_precedence itemRollCall ["Alice", "Bob"] "Alice" "Negative"
    (by decide) (by decide) (by decide)

/-- C2: for an item with no per-item votes, a passed flag equal to 1 assigns
every member Yes, except members whose attendance status is Absent or
Absent@vote, who get Absent; a passed flag of 0 or an absent passed flag
assigns every member the empty value. -/
theorem assign_votes_consent_fallback
    (item : AgendaItem) (members : List String) (member : String)
    (he : item.item_votes = [])
    (hm : member ∈ members) :
    (item.passed = some 1 →
      assocLookup (assignVotes item members) member =
        some (if dictGet item.attendance member "" = "Absent" ∨
                 dictGet item.attendance member "" = "Absent@vote"
              then "Absent" else "Yes")) ∧
    (item.passed = some 0 ∨ item.passed = none →
      assocLookup (assignVotes item members) member = some "") := by
  have hne : ¬item.item_votes ≠ [] := by simp [he]
  constructor
  · intro hp
    unfold assignVotes
    rw [if_neg hne, if_pos hp, assocLookup_map_pair hm]
    rfl
  · intro hp
    have hp1 : ¬item.passed = some 1 := by
      rcases hp with h | h <;> simp [h]
    unfold assignVotes
    rw [if_neg hne, if_neg hp1, assocLookup_map_pair hm]

theorem assign_votes_consent_fallback_witness :
    assocLookup (assignVotes itemConsent ["Bob", "Carol"]) "Bob" = some "Absent" ∧
    assocLookup (assignVotes itemFailed ["Bob"]) "Bob" = some "" := by
  constructor
  · have h :=
      (assign_votes_consent_fallback itemConsent ["Bob", "Carol"] "Bob"
        (by decide) (by decide)).1 (by decide)
    have hcond :
        (if dictGet itemConsent.attendance "Bob" "" = "Absent" ∨
            dictGet itemConsent.attendance "Bob" "" = "Absent@vote"
         then "Absent" else "Yes") = "Absent" := by decide
    rw [hcond] at h
    exact h
  · exact
      (assign_votes_consent_fallback itemFailed ["Bob"] "Bob"
        (by decide) (by decide)).2 (Or.inl (by decide))

/-- C3: the keys of the mapping _assign_votes returns are exactly the given
canonical member list, whatever subset of members appears in the item's
per-item votes or in the meeting's attendance. -/
theorem assign_votes_keys_eq_members (item : AgendaItem) (members : List String) :
    (assignVotes item members).map Prod.fst = members := by
  unfold assignVotes
  split
  · exact map_fst_pair _ _
  · split
    · exact map_fst_pair _ _
    · exact map_fst_pair _ _

/-- C5: the translation _assign_votes applies to a recorded per-item vote
maps Affirmative to Yes, Negative to No, Abstained to Abstain, Absent and
Absent@vote to Absent, Present to Present, and passes every other string
through unchanged; a recorded value is always routed through it. -/
theorem vote_map_translation :
    voteMapGet "Affirmative" = "Yes" ∧
    voteMapGet "Negative" = "No" ∧
    voteMapGet "Abstained" = "Abstain" ∧
    voteMapGet "Absent" = "Absent" ∧
    voteMapGet "Absent@vote" = "Absent" ∧
    voteMapGet "Present" = "Present" ∧
    (∀ s : String,
      s ∉ ["Affirmative", "Negative", "Abstained", "Absent@vote", "Absent", "Present"] →
        voteMapGet s = s) ∧
    (∀ (item : AgendaItem) (member v : String),
      assocLookup item.item_votes member = some v →
        itemVoteValue item member = voteMapGet v) := by
  refine ⟨by decide, by decide, by decide, by decide, by decide, by decide, ?_, ?_⟩
  · intro s hs
    simp only [List.mem_cons, List.not_mem_nil, or_false, not_or] at hs
    obtain ⟨h1, h2, h3, h4, h5, h6⟩ := hs
    simp [voteMapGet, VOTE_MAP, assocLookup,
      Ne.symm h1, Ne.symm h2, Ne.symm h3, Ne.symm h4, Ne.symm h5, Ne.symm h6]
  · intro item member v hv
    unfold itemVoteValue
    rw [hv]

theorem vote_map_translation_witness :
    voteMapGet "Tardy" = "Tardy" ∧
    itemVoteValue itemRollCall "Alice" = voteMapGet "Negative" :=
  ⟨vote_map_translation.2.2.2.2.2.2.1 "Tardy" (by decide),
   vote_map_translation.2.2.2.2.2.2.2 itemRollCall "Alice" "Negative" (by decide)⟩

/-- C6: on any item with an empty per-item vote mapping and any attendance
mapping, the per-member values written by extract_q1_2023.py's row loop
coincide with the parameterized workflow's _assign_votes. -/
theorem q1_row_matches_assign_votes (item : AgendaItem) (members : List String)
    (he : item.item_votes = []) :
    q1AssignRow item members = assignVotes item members := by
  have hne : ¬item.item_votes ≠ [] := by simp [he]
  have hv : ∀ member, q1RowVote item member = consentVoteValue item member := by
    intro member
    unfold q1RowVote consentVoteValue
    by_cases hp : dictGet item.attendance member "" = "Present"
    · rw [if_pos hp]
      have hnabs : ¬(dictGet item.attendance member "" = "Absent" ∨
          dictGet item.attendance member "" = "Absent@vote") := by
        rw [hp]; decide
      rw [if_neg hnabs]
    · rw [if_neg hp]
  unfold q1AssignRow assignVotes
  rw [if_neg hne]
  by_cases hp1 : item.passed = some 1
  · rw [if_pos hp1, if_pos hp1]
    simp only [hv]
  · rw [if_neg hp1, if_neg hp1]
    split <;> rfl

theorem q1_row_matches_assign_votes_witness :
    q1AssignRow itemConsent ["Bob", "Carol", "Dana"] =
      assignVotes itemConsent ["Bob", "Carol", "Dana"] :=
  q1_row_matches_assign_votes itemConsent ["Bob", "Carol", "Dana"] (by decide)

theorem formatDate_eq (y : Int) (mo da : Nat) (md : String)
    (h : pad2 mo ++ "-" ++ pad2 da = md) :
    formatDate ⟨y, mo, da⟩ = toString y ++ "-" ++ md := by
  unfold formatDate
  dsimp only
  simp only [String.append_assoc] at h ⊢
  rw [h]

/-- C4: for every year and quarter 1-4, get_quarter_dates returns the pair of
date strings for the quarter's boundaries: the start is the 1st of January,
April, July or October of that year, the end is the next quarter boundary and
is strictly later, the end of quarter q is the start of quarter q+1, and
quarter 4's end rolls into January 1 of the next year, the start of its
quarter 1. -/
theorem get_quarter_dates_boundaries (year : Int) (quarter : Nat)
    (hlo : 1 ≤ quarter) (hhi : quarter ≤ 4) :
    ∃ s e : CalDate,
      quarterStart year quarter = some s ∧
      quarterEnd year quarter = some e ∧
      get_quarter_dates year quarter = some (formatDate s, formatDate e) ∧
      dateLt s e ∧
      s.month ∈ [1, 4, 7, 10] ∧ s.day = 1 ∧ s.year = year ∧
      (quarter < 4 → quarterStart year (quarter + 1) = some e) ∧
      (quarter = 4 → e = ⟨year + 1, 1, 1⟩ ∧ quarterStart (year + 1) 1 = some e) := by
  interval_cases quarter
  · refine ⟨⟨year, 1, 1⟩, ⟨year, 4, 1⟩, rfl, rfl, ?_,
      Or.inr ⟨rfl, Or.inl (show (1:Nat) < 4 by decide)⟩,
      show (1:Nat) ∈ [1, 4, 7, 10] by decide, rfl, rfl, fun _ => rfl,
      fun h => absurd h (by decide)⟩
    rw [formatDate_eq year 1 1 "01-01" (by decide),
        formatDate_eq year 4 1 "04-01" (by decide)]
    rfl
  · refine ⟨⟨year, 4, 1⟩, ⟨year, 7, 1⟩, rfl, rfl, ?_,
      Or.inr ⟨rfl, Or.inl (show (4:Nat) < 7 by decide)⟩,
      show (4:Nat) ∈ [1, 4, 7, 10] by decide, rfl, rfl, fun _ => rfl,
      fun h => absurd h (by decide)⟩
    rw [formatDate_eq year 4 1 "04-01" (by decide),
        formatDate_eq year 7 1 "07-01" (by decide)]
    rfl
  · refine ⟨⟨year, 7, 1⟩, ⟨year, 10, 1⟩, rfl, rfl, ?_,
      Or.inr ⟨rfl, Or.inl (show (7:Nat) < 10 by decide)⟩,
      show (7:Nat) ∈ [1, 4, 7, 10] by decide, rfl, rfl, fun _ => rfl,
      fun h => absurd h (by decide)⟩
    rw [formatDate_eq year 7 1 "07-01" (by decide),
        formatDate_eq year 10 1 "10-01" (by decide)]
    rfl
  · refine ⟨⟨year, 10, 1⟩, ⟨year + 1, 1, 1⟩, rfl, rfl, ?_,
      Or.inl (show year < year + 1 by omega),
      show (10:Nat) ∈ [1, 4, 7, 10] by decide, rfl, rfl,
      fun h => absurd h (by decide), fun _ => ⟨rfl, rfl⟩⟩
    rw [formatDate_eq year 10 1 "10-01" (by decide),
        formatDate_eq (year + 1) 1 1 "01-01" (by decide)]
    rfl

theorem get_quarter_dates_boundaries_witness :
    get_quarter_dates 2023 4 = some ("2023-10-01", "2024-01-01") := by
  obtain ⟨s, e, hs, he, hq, _, _, _, _, _, _⟩ :=
    get_quarter_dates_boundaries 2023 4 (by decide) (by decide)
  have hs1 : s = ⟨2023, 10, 1⟩ :=
    (Option.some.inj (show some (⟨2023, 10, 1⟩ : CalDate) = some s from hs)).symm
  have he1 : e = ⟨2024, 1, 1⟩ :=
    (Option.some.inj (show some (⟨2024, 1, 1⟩ : CalDate) = some e from he)).symm
  subst hs1
  subst he1
  rw [hq]
  decide

theorem foldl_cons_eq_reverse_append {α β : Type} (g : α → β) (l : List α) (c0 : List β) :
    l.foldl (fun c x => g x :: c) c0 = (l.map g).reverse ++ c0 := by
  induction l generalizing c0 with
  | nil => rfl
  | cons a as ih =>
    simp only [List.foldl_cons, List.map_cons, List.reverse_cons, ih, List.append_assoc,
      List.singleton_append]

theorem assocLookup_append {κ α : Type} [DecidableEq κ] (a b : List (κ × α)) (k : κ) :
    assocLookup (a ++ b) k =
      match assocLookup a k with
      | some v => some v
      | none => assocLookup b k := by
  induction a with
  | nil => rfl
  | cons p rest ih =>
    obtain ⟨k0, v0⟩ := p
    simp only [List.cons_append, assocLookup]
    by_cases h : k0 = k
    · rw [if_pos h, if_pos h]
    · rw [if_neg h, if_neg h]
      exact ih

theorem assocLookup_eq_of_forall {κ α : Type} [DecidableEq κ] {d : List (κ × α)}
    {k : κ} {v : α}
    (hall : ∀ p ∈ d, p.1 = k → p.2 = v) (hex : ∃ p ∈ d, p.1 = k) :
    assocLookup d k = some v := by
  induction d with
  | nil => obtain ⟨p, hp, _⟩ := hex; cases hp
  | cons q rest ih =>
    obtain ⟨k0, v0⟩ := q
    simp only [assocLookup]
    by_cases h : k0 = k
    · rw [if_pos h]
      exact congrArg some (hall (k0, v0) (List.mem_cons_self _ _) h)
    · rw [if_neg h]
      refine ih (fun p hp hpk => hall p (List.mem_cons_of_mem _ hp) hpk) ?_
      obtain ⟨p, hp, hpk⟩ := hex
      rcases List.mem_cons.mp hp with heq | hp2
      · rw [heq] at hpk; exact absurd hpk h
      · exact ⟨p, hp2, hpk⟩

theorem cache_lookup_fresh {κ β : Type} [DecidableEq κ] {f : κ → β} {l : List κ}
    {c0 : List (κ × β)} {mid : κ} (hm : mid ∈ l) :
    assocLookup (l.foldl (fun c x => (x, f x) :: c) c0) mid = some (f mid) := by
  rw [foldl_cons_eq_reverse_append (fun x => (x, f x)) l c0, assocLookup_append]
  have hfound : assocLookup ((l.map (fun x => (x, f x))).reverse) mid = some (f mid) := by
    apply assocLookup_eq_of_forall
    · intro p hp hpk
      rw [List.mem_reverse] at hp
      obtain ⟨x, hx, hpx⟩ := List.mem_map.mp hp
      rw [← hpx] at hpk ⊢
      dsimp at hpk ⊢
      rw [hpk]
    · exact ⟨(mid, f mid), List.mem_reverse.mpr (List.mem_map.mpr ⟨mid, hm, rfl⟩), rfl⟩
  rw [hfound]

theorem applyCacheEntry_matter_id (entry : MatterCacheEntry) (item : AgendaItem) :
    (applyCacheEntry entry item).matter_id = item.matter_id := by
  rcases entry with ⟨det, att⟩
  cases item
  rcases det with _ | d <;> by_cases ha : att ≠ [] <;>
    simp [applyCacheEntry, applyDetails, ha]

theorem matterKey_applyCacheEntry (entry : MatterCacheEntry) (item : AgendaItem) :
    matterKey (applyCacheEntry entry item) = matterKey item := by
  unfold matterKey
  rw [applyCacheEntry_matter_id]

theorem enrichItem_matterKey (cache : List (Nat × MatterCacheEntry)) (item : AgendaItem) :
    matterKey (enrichItem cache item) = matterKey item := by
  unfold enrichItem
  split
  · rfl
  · split
    · rfl
    · exact matterKey_applyCacheEntry _ _

theorem applyCacheEntry_idem (entry : MatterCacheEntry) (item : AgendaItem) :
    applyCacheEntry entry (applyCacheEntry entry item) = applyCacheEntry entry item := by
  rcases entry with ⟨det, att⟩
  cases item
  rcases det with _ | d <;> by_cases ha : att ≠ [] <;>
    simp [applyCacheEntry, applyDetails, ha]

theorem filterMap_matterKey_map_enrich (cache : List (Nat × MatterCacheEntry))
    (items : List AgendaItem) :
    (items.map (enrichItem cache)).filterMap matterKey = items.filterMap matterKey := by
  induction items with
  | nil => rfl
  | cons a as ih =>
    cases hk : matterKey a with
    | none =>
      simp only [List.map_cons, List.filterMap_cons, enrichItem_matterKey, hk, ih]
    | some mid =>
      simp only [List.map_cons, List.filterMap_cons, enrichItem_matterKey, hk, ih]

/-- C7: within one enrichment pass the fetch loop visits each unique truthy
matter identifier exactly once (the visited list is duplicate-free and
contains precisely the referenced identifiers), caching the fetched detail
and attachment list under that identifier; and re-running enrich_matter_data
on the already-enriched item list with the already-populated cache leaves
every item, in particular every matter-detail field and attachment_links
value, unchanged. -/
theorem enrich_matter_once_idem (fetchDetails : Nat → Option MatterDetails)
    (fetchAttachments : Nat → List (Option String))
    (cache0 : List (Nat × MatterCacheEntry)) (items : List AgendaItem) :
    (uniqueMatterIds items).Nodup ∧
    (∀ mid, mid ∈ uniqueMatterIds items ↔ ∃ item ∈ items, matterKey item = some mid) ∧
    (∀ mid ∈ uniqueMatterIds items,
      assocLookup (enrich_matter_data fetchDetails fetchAttachments cache0 items).1 mid =
        some ⟨fetchDetails mid, fetchAttachments mid⟩) ∧
    (enrich_matter_data fetchDetails fetchAttachments
        (enrich_matter_data fetchDetails fetchAttachments cache0 items).1
        (enrich_matter_data fetchDetails fetchAttachments cache0 items).2).2 =
      (enrich_matter_data fetchDetails fetchAttachments cache0 items).2 := by
  have hnodup : (uniqueMatterIds items).Nodup :=
    (List.perm_insertionSort _ _).nodup_iff.mpr (List.nodup_dedup _)
  have hmem : ∀ mid, mid ∈ uniqueMatterIds items ↔
      ∃ item ∈ items, matterKey item = some mid := by
    intro mid
    unfold uniqueMatterIds
    rw [(List.perm_insertionSort _ _).mem_iff, List.mem_dedup, List.mem_filterMap]
  have hc1 : (enrich_matter_data fetchDetails fetchAttachments cache0 items).1 =
      (uniqueMatterIds items).foldl
        (fun c mid => (mid, ⟨fetchDetails mid, fetchAttachments mid⟩) :: c) cache0 := rfl
  have hlook : ∀ mid ∈ uniqueMatterIds items,
      assocLookup (enrich_matter_data fetchDetails fetchAttachments cache0 items).1 mid =
        some ⟨fetchDetails mid, fetchAttachments mid⟩ := by
    intro mid hm
    rw [hc1]
    exact cache_lookup_fresh hm
  refine ⟨hnodup, hmem, hlook, ?_⟩
  have hi1 : (enrich_matter_data fetchDetails fetchAttachments cache0 items).2 =
      items.map (enrichItem (enrich_matter_data fetchDetails fetchAttachments cache0 items).1) :=
    rfl
  have hids : uniqueMatterIds
      ((enrich_matter_data fetchDetails fetchAttachments cache0 items).2) =
      uniqueMatterIds items := by
    rw [hi1]
    unfold uniqueMatterIds
    rw [filterMap_matterKey_map_enrich]
  have hc2 : (enrich_matter_data fetchDetails fetchAttachments
      (enrich_matter_data fetchDetails fetchAttachments cache0 items).1
      (enrich_matter_data fetchDetails fetchAttachments cache0 items).2).1 =
      (uniqueMatterIds ((enrich_matter_data fetchDetails fetchAttachments cache0 items).2)).foldl
        (fun c mid => (mid, ⟨fetchDetails mid, fetchAttachments mid⟩) :: c)
        (enrich_matter_data fetchDetails fetchAttachments cache0 items).1 := rfl
  have hlook2 : ∀ mid ∈ uniqueMatterIds items,
      assocLookup (enrich_matter_data fetchDetails fetchAttachments
        (enrich_matter_data fetchDetails fetchAttachments cache0 items).1
        (enrich_matter_data fetchDetails fetchAttachments cache0 items).2).1 mid =
        some ⟨fetchDetails mid, fetchAttachments mid⟩ := by
    intro mid hm
    rw [hc2, hids]
    exact cache_lookup_fresh hm
  have hbody : (enrich_matter_data fetchDetails fetchAttachments
      (enrich_matter_data fetchDetails fetchAttachments cache0 items).1
      (enrich_matter_data fetchDetails fetchAttachments cache0 items).2).2 =
      ((enrich_matter_data fetchDetails fetchAttachments cache0 items).2).map
        (enrichItem (enrich_matter_data fetchDetails fetchAttachments
          (enrich_matter_data fetchDetails fetchAttachments cache0 items).1
          (enrich_matter_data fetchDetails fetchAttachments cache0 items).2).1) := rfl
  rw [hbody, hi1, List.map_map]
  apply List.map_congr_left
  intro item hitem
  show enrichItem _ (enrichItem _ item) = enrichItem _ item
  rcases hk : matterKey item with _ | mid
  · simp only [enrichItem, hk]
  · have hmidU : mid ∈ uniqueMatterIds items :=
      (hmem mid).mpr ⟨item, hitem, hk⟩
    have l1 := hlook mid hmidU
    have l2 := hlook2 mid hmidU
    rw [hi1] at l2
    have e1 : enrichItem (enrich_matter_data fetchDetails fetchAttachments cache0 items).1
        item = applyCacheEntry ⟨fetchDetails mid, fetchAttachments mid⟩ item := by
      simp only [enrichItem, hk, l1]
    have hk2 : matterKey (applyCacheEntry ⟨fetchDetails mid, fetchAttachments mid⟩ item) =
        some mid := by
      rw [matterKey_applyCacheEntry, hk]
    rw [e1]
    simp only [enrichItem, hk2, l2]
    exact applyCacheEntry_idem _ _

theorem enrich_matter_once_idem_witness :
    assocLookup (enrich_matter_data fetchDetails0 fetchAttachments0 [] [itemMatter]).1 5 =
      some ⟨fetchDetails0 5, fetchAttachments0 5⟩ :=
  (enrich_matter_once_idem fetchDetails0 fetchAttachments0 [] [itemMatter]).2.2.1 5
    (by decide)

theorem load_fold_lookup_of_none (rows : List CsvRow) (X : String) :
    ∀ m : List (String × String), (∀ r ∈ rows, r.event_item_id ≠ X) →
      assocLookup (rows.foldl loadTextStep m) X = assocLookup m X := by
  induction rows with
  | nil => intro m _; rfl
  | cons r rest ih =>
    intro m hnone
    rw [List.foldl_cons, ih _ (fun q hq => hnone q (List.mem_cons_of_mem _ hq))]
    unfold loadTextStep
    split
    · simp only [assocLookup]
      rw [if_neg (hnone r (List.mem_cons_self _ _))]
    · rfl

theorem load_fold_lookup_of_forall (rows : List CsvRow) (X T : String)
    (hX : X ≠ "") (hT : T ≠ "") :
    ∀ m : List (String × String),
      (∀ r ∈ rows, r.event_item_id = X → r.Agenda_item_fulltext = T) →
      (∃ r ∈ rows, r.event_item_id = X) →
      assocLookup (rows.foldl loadTextStep m) X = some T := by
  induction rows with
  | nil =>
    intro m _ hex
    obtain ⟨r, hr, _⟩ := hex
    cases hr
  | cons r rest ih =>
    intro m hall hex
    rw [List.foldl_cons]
    by_cases hex2 : ∃ q ∈ rest, q.event_item_id = X
    · exact ih _ (fun q hq hqx => hall q (List.mem_cons_of_mem _ hq) hqx) hex2
    · have hrX : r.event_item_id = X := by
        obtain ⟨q, hq, hqx⟩ := hex
        rcases List.mem_cons.mp hq with heq | hq2
        · rw [← heq]; exact hqx
        · exact absurd ⟨q, hq2, hqx⟩ hex2
      have hrT : r.Agenda_item_fulltext = T := hall r (List.mem_cons_self _ _) hrX
      have hnone : ∀ q ∈ rest, q.event_item_id ≠ X := fun q hq hqx =>
        hex2 ⟨q, hq, hqx⟩
      rw [load_fold_lookup_of_none rest X _ hnone]
      unfold loadTextStep
      have hcond : r.event_item_id ≠ "" ∧ r.Agenda_item_fulltext ≠ "" := by
        rw [hrX, hrT]; exact ⟨hX, hT⟩
      rw [if_pos hcond]
      simp only [assocLookup]
      rw [if_pos hrX, hrT]

/-- C8: if the prior run's primary CSV holds a non-empty full text T for item
identifier X, then after the skip-text phase every collected item whose
stringified event_item_id is X carries exactly that text T. -/
theorem text_preservation (rows : List CsvRow) (items : List AgendaItem) (X T : String)
    (hX : X ≠ "") (hT : T ≠ "")
    (hex : ∃ r ∈ rows, r.event_item_id = X)
    (hall : ∀ r ∈ rows, r.event_item_id = X → r.Agenda_item_fulltext = T) :
    ∀ item ∈ run_skip_text_phase rows items,
      toString item.event_item_id = X → item.Agenda_item_fulltext = T := by
  have hlook : assocLookup (load_existing_text rows) X = some T :=
    load_fold_lookup_of_forall rows X T hX hT [] hall hex
  intro item hmem hid
  have hne : ¬(load_existing_text rows).isEmpty := by
    intro hemp
    have hnil : load_existing_text rows = [] := by
      cases hrows : load_existing_text rows
      · rfl
      · rw [hrows] at hemp; cases hemp
    rw [hnil] at hlook
    exact Option.noConfusion hlook
  unfold run_skip_text_phase at hmem
  rw [if_neg hne] at hmem
  unfold preserveText at hmem
  obtain ⟨item0, hi0, heq⟩ := List.mem_map.mp hmem
  rcases hcase : assocLookup (load_existing_text rows) (toString item0.event_item_id)
    with _ | t
  · rw [hcase] at heq
    have heq2 : item0 = item := by rw [← heq]
    rw [← heq2] at hid
    rw [hid, hlook] at hcase
    cases hcase
  · rw [hcase] at heq
    have heq2 : { item0 with Agenda_item_fulltext := t } = item := by rw [← heq]
    have hid0 : toString item0.event_item_id = X := by
      rw [← heq2] at hid
      exact hid
    rw [hid0, hlook] at hcase
    rw [← heq2]
    exact (Option.some.inj hcase).symm

theorem text_preservation_witness :
    ({ itemText with Agenda_item_fulltext := "Full text of item seven" } : AgendaItem) ∈
        run_skip_text_phase [rowPrior] [itemText] ∧
    ({ itemText with
        Agenda_item_fulltext := "Full text of item seven" } : AgendaItem).Agenda_item_fulltext =
      "Full text of item seven" :=
  ⟨by decide,
   text_preservation [rowPrior] [itemText] "7" "Full text of item seven"
     (by decide) (by decide) ⟨rowPrior, by decide, rfl⟩ (by decide)
     { itemText with Agenda_item_fulltext := "Full text of item seven" }
     (by decide) (by decide)⟩

theorem buildRows_map_fst (members : List String) (items : List AgendaItem) :
    (buildRows members items).map Prod.fst = items :=
  map_fst_pair (fun item => assignVotes item members) items

/-- C9: with votes-only mode active the primary output holds exactly as many
rows as there are items with a non-absent passed flag and no secondary file
is produced; with it inactive the primary holds every collected item and the
secondary holds exactly the items with a non-absent passed flag. -/
theorem write_output_filtering (members : List String) (all_items : List AgendaItem) :
    ((write_output true members all_items).1.length =
        (all_items.filter (fun i => i.passed.isSome)).length ∧
      (write_output true members all_items).2 = none) ∧
    ((write_output false members all_items).1.map Prod.fst = all_items ∧
      (write_output false members all_items).2.map (fun sec => sec.map Prod.fst) =
        some (all_items.filter (fun i => i.passed.isSome))) := by
  refine ⟨⟨?_, rfl⟩, ?_, ?_⟩
  · show (buildRows members (all_items.filter fun i => i.passed.isSome)).length = _
    unfold buildRows
    rw [List.length_map]
  · show (buildRows members all_items).map Prod.fst = all_items
    exact buildRows_map_fst members all_items
  · show some ((buildRows members (all_items.filter fun i => i.passed.isSome)).map Prod.fst) =
      some (all_items.filter fun i => i.passed.isSome)
    rw [buildRows_map_fst]

/-- C10: _assign_votes is pure: threaded through explicit state it returns
the workflow state and the agenda item unchanged together with the same
mapping assignVotes computes, a second call on the returned state and item
yields an equal mapping, and consequently every row of write_output's
secondary voted-items file appears with an identical vote mapping in the
primary file. -/
theorem assign_votes_pure (st : WorkflowState) (item : AgendaItem) (members : List String) :
    (assignVotesSt st item members).1 = st ∧
    (assignVotesSt st item members).2.1 = item ∧
    (assignVotesSt st item members).2.2 = assignVotes item members ∧
    (assignVotesSt (assignVotesSt st item members).1 (assignVotesSt st item members).2.1
        members).2.2 = (assignVotesSt st item members).2.2 ∧
    (∀ (all_items : List AgendaItem) (sec : List OutputRow) (row : OutputRow),
      (write_output false members all_items).2 = some sec →
      row ∈ sec → row ∈ (write_output false members all_items).1) := by
  refine ⟨rfl, rfl, rfl, rfl, ?_⟩
  intro all_items sec row hsec hrow
  have hsec2 : some (buildRows members (all_items.filter fun i => i.passed.isSome)) =
      some sec := hsec
  have hsec3 : sec = buildRows members (all_items.filter fun i => i.passed.isSome) :=
    (Option.some.inj hsec2).symm
  rw [hsec3] at hrow
  show row ∈ buildRows members all_items
  unfold buildRows at hrow ⊢
  obtain ⟨i, hi, hroweq⟩ := List.mem_map.mp hrow
  exact List.mem_map.mpr ⟨i, List.mem_of_mem_filter hi, hroweq⟩

theorem assign_votes_pure_witness :
    (itemRollCall, assignVotes itemRollCall ["Alice"]) ∈
      (write_output false ["Alice"] [itemRollCall]).1 :=
  (assign_votes_pure emptyState itemRollCall ["Alice"]).2.2.2.2 [itemRollCall]
    (buildRows ["Alice"] ([itemRollCall].filter fun i => i.passed.isSome))
    (itemRollCall, assignVotes itemRollCall ["Alice"]) rfl (by decide)

end CityVotes
